import Mathlib

/-!
Shallow embedding of `internal/vaults/model.go` from the ydaemon repository:
the vault record data model, the name/symbol normalization (`BuildNames`,
`BuildSymbol`), the enrichment merges (`BuildMigration`, `BuildAPY`) and the
per-chain in-memory index (`ListVaults`, `ListVaultsAddresses`, `FindVault`).

Go strings are modelled as `List Char`; Go maps as association lists (inner
level) and functions (outer level); `*bigNumber.Int` as `Option Int`;
`float64`/`float32` opaquely by their bit patterns, since the code only
zero-initializes and copies them.
-/

/-- Go strings, modelled as lists of characters.  The empty Go string is `[]`. -/
abbrev GoString := List Char

/-- The double-quote character `"` (code point 34). -/
def quoteChar : Char := Char.ofNat 34

/-- Go `strings.Replace(s, "\x22", "", -1)`: remove every quote character. -/
def stripQuotes (s : GoString) : GoString := s.filter (fun c => c ≠ quoteChar)

/-- Go `strings.HasSuffix s w` (does `s` end with `w`?). -/
def goEndsWith (s w : GoString) : Bool := decide (w <:+ s)

/-- Go `strings.HasPrefix s w` (does `s` start with `w`?). -/
def goStartsWith (s w : GoString) : Bool := decide (w <+: s)

/-- Modelled from the spec: `helpers.SafeString` is not under `src/`; §4.2
describes it as first-non-empty-wins precedence: `s` if non-empty, else the
fallback. -/
def SafeString (s fallback : GoString) : GoString := if s = [] then fallback else s

/-- `ethcommon.Address` (a 20-byte value), modelled by a natural number. -/
structure EthAddress where
  val : Nat
deriving DecidableEq, Repr

/-- `common.Address` (this repository's address type), modelled by a natural
number.  `common.FromAddress` / `ToAddress` convert between the two address
types, preserving the underlying bytes. -/
structure CommonAddress where
  val : Nat
deriving DecidableEq, Repr

/-- `common.FromAddress : ethcommon.Address → common.Address`. -/
def FromAddress (a : EthAddress) : CommonAddress := ⟨a.val⟩

/-- `common.Address.ToAddress : common.Address → ethcommon.Address`. -/
def CommonAddress.toAddress (a : CommonAddress) : EthAddress := ⟨a.val⟩

/-- The Go zero value of `common.Address` (all-zero bytes). -/
def CommonAddress.zero : CommonAddress := ⟨0⟩

/-- Go `float64` values, modelled opaquely by their bit pattern: the code in
scope only zero-initializes and copies them, never computes with them.  The Go
zero value `0.0` has all-zero bits. -/
structure Float64 where
  bits : Nat
deriving DecidableEq, Repr

/-- The Go zero value of `float64`. -/
def Float64.zero : Float64 := ⟨0⟩

/-- Go `float32`, modelled like `Float64`. -/
structure Float32 where
  bits : Nat
deriving DecidableEq, Repr

def Float32.zero : Float32 := ⟨0⟩

/-- `tokens.TERC20Token`, the attached token descriptor.  Modelled from the
spec: the descriptor is opaque to this core (§3); only its `Name` and `Symbol`
fields are read by the code in scope, so only those are carried. -/
structure TERC20Token where
  Name : GoString
  Symbol : GoString
deriving DecidableEq, Repr

/-- `strategies.TStrategy`, an opaque attached strategy descriptor. -/
structure TStrategy where
  val : Nat
deriving DecidableEq, Repr

/-- `TTVL` holds the info about the value locked in a vault. -/
structure TTVL where
  TotalAssets : Option Int
  TotalDelegatedAssets : Option Int
  TVLDeposited : Float64
  TVLDelegated : Float64
  TVL : Float64
  Price : Float64
deriving DecidableEq, Repr

/-- `TAPYFees` holds the fees information about this vault. -/
structure TAPYFees where
  Performance : Float64
  Withdrawal : Float64
  Management : Float64
  KeepCRV : Float64
  CvxKeepCRV : Float64
deriving DecidableEq, Repr

/-- `TAPYPoints` holds the points information about this vault. -/
structure TAPYPoints where
  WeekAgo : Float64
  MonthAgo : Float64
  Inception : Float64
deriving DecidableEq, Repr

/-- `TAPYComposite` holds the composite breakdown about this vault. -/
structure TAPYComposite where
  Boost : Float64
  PoolAPY : Float64
  BoostedAPR : Float64
  BaseAPR : Float64
  CvxAPR : Float64
  RewardsAPR : Float64
deriving DecidableEq, Repr

/-- `TAPY` contains all the information about the APY, APR, fees and breakdown. -/
structure TAPY where
  «Type» : GoString
  GrossAPR : Float64
  NetAPY : Float64
  Fees : TAPYFees
  Points : TAPYPoints
  Composite : TAPYComposite
deriving DecidableEq, Repr

/-- The Go zero value `TAPY\x7b\x7d`. -/
def TAPY.zero : TAPY :=
  ⟨[], Float64.zero, Float64.zero,
   ⟨Float64.zero, Float64.zero, Float64.zero, Float64.zero, Float64.zero⟩,
   ⟨Float64.zero, Float64.zero, Float64.zero⟩,
   ⟨Float64.zero, Float64.zero, Float64.zero, Float64.zero, Float64.zero, Float64.zero⟩⟩

/-- `TMigration` helps us to know if a vault is in the process of being migrated. -/
structure TMigration where
  Available : Bool
  Address : CommonAddress
deriving DecidableEq, Repr

/-- The Go zero value `TMigration\x7b\x7d`: unavailable, zero address. -/
def TMigration.zero : TMigration := ⟨false, CommonAddress.zero⟩

/-- `TVaultDetails` holds some extra information about the vault. -/
structure TVaultDetails where
  Management : CommonAddress
  Governance : CommonAddress
  Guardian : CommonAddress
  Rewards : CommonAddress
  DepositLimit : Option Int
  AvailableDepositLimit : Option Int
  Comment : GoString
  APYTypeOverride : GoString
  APYOverride : Float64
  Order : Float32
  PerformanceFee : Nat
  ManagementFee : Nat
  DepositsDisabled : Bool
  WithdrawalsDisabled : Bool
  AllowZapIn : Bool
  AllowZapOut : Bool
  Retired : Bool
deriving DecidableEq, Repr

/-- `TVault` is the main structure returned by the API when trying to get all
the vaults for a specific network. -/
structure TVault where
  Address : EthAddress
  Registry : EthAddress
  Symbol : GoString
  DisplaySymbol : GoString
  FormatedSymbol : GoString
  Name : GoString
  DisplayName : GoString
  FormatedName : GoString
  Icon : GoString
  Version : GoString
  «Type» : GoString
  Inception : Nat
  Decimals : Nat
  Endorsed : Bool
  Emergency_shutdown : Bool
  PricePerShare : Int
  Token : TERC20Token
  TVL : TTVL
  APY : TAPY
  Strategies : List TStrategy
  Migration : TMigration
  Details : Option TVaultDetails
deriving DecidableEq, Repr

/-- The constant string `"yVault"`. -/
def yVaultW : GoString := "yVault".toList

/-- The constant string `" yVault"` (leading space). -/
def spaceYVaultW : GoString := " yVault".toList

/-- The constant string `"yv"`. -/
def yvW : GoString := "yv".toList

/-- `func (t *TVault) BuildNames(metaVaultName string)` from
`internal/vaults/model.go`. -/
def TVault.BuildNames (t : TVault) (metaVaultName : GoString) : TVault :=
  let name := stripQuotes t.Name
  let displayName := t.Name
  let formatedName := t.Token.Name
  -- If the meta file has a display name, use it
  let displayName := if metaVaultName ≠ [] then metaVaultName else displayName
  -- If the formated name is missing yVault suffix, add it
  let formatedName :=
    if ¬ goEndsWith formatedName yVaultW then formatedName ++ spaceYVaultW else formatedName
  -- If a display name exist, use it for the formating.
  let formatedName :=
    if displayName ≠ [] ∧ ¬ goEndsWith displayName yVaultW
    then displayName ++ spaceYVaultW else formatedName
  -- If the name is empty, use the displayName instead
  let name := if name = [] then displayName else name
  -- If the name is still empty, use the formated name instead
  let name := if name = [] then formatedName else name
  { t with Name := name, DisplayName := displayName, FormatedName := formatedName }

/-- `func (t *TVault) BuildSymbol(metaVaultSymbol string)` from
`internal/vaults/model.go`. -/
def TVault.BuildSymbol (t : TVault) (metaVaultSymbol : GoString) : TVault :=
  let symbol := stripQuotes t.Symbol
  let formatedSymbol := t.Token.Symbol
  let displaySymbol := metaVaultSymbol
  -- If the formated symbol is missing yv prefix, add it
  let formatedSymbol :=
    if ¬ goStartsWith formatedSymbol yvW then yvW ++ formatedSymbol else formatedSymbol
  -- If a display name exist, use it for the formating.
  let formatedSymbol :=
    if displaySymbol ≠ [] ∧ ¬ goStartsWith displaySymbol yvW
    then yvW ++ displaySymbol else formatedSymbol
  let symbol := SafeString symbol displaySymbol
  let symbol := SafeString symbol formatedSymbol
  let displaySymbol := SafeString displaySymbol symbol
  { t with Symbol := symbol, DisplaySymbol := displaySymbol, FormatedSymbol := formatedSymbol }

/-- Modelled from the spec: the curated-metadata store entry
(`meta.Store.VaultsFromMeta` is not under `src/`); §6 describes it as
`\x7bmigrationAvailable: bool, migrationTargetVault: address\x7d`. -/
structure TVaultFromMeta where
  MigrationAvailable : Bool
  MigrationTargetVault : CommonAddress
deriving DecidableEq, Repr

/-- Modelled from the spec: the curated-metadata collaborator keyed by
(chainID, address); a miss at either map level yields no entry, as for a Go
two-level map. -/
def MetaStore := Nat → CommonAddress → Option TVaultFromMeta

/-- Modelled from the spec: the analytics store entry
(`store.Store.AggregatedVault` is not under `src/`); §6 describes its
`legacyAPY` as the full APYSnapshot shape of §3, i.e. `TAPY`. -/
structure TAggregatedVault where
  LegacyAPY : TAPY
deriving DecidableEq, Repr

/-- Modelled from the spec: the analytics collaborator keyed by
(chainID, address). -/
def AggStore := Nat → CommonAddress → Option TAggregatedVault

/-- `func (t *TVault) BuildMigration(chainID uint64)` from
`internal/vaults/model.go`, with the global `meta.Store.VaultsFromMeta` made
an explicit parameter. -/
def TVault.BuildMigration (t : TVault) (st : MetaStore) (chainID : Nat) : TVault :=
  let migration : TMigration := TMigration.zero
  match st chainID (FromAddress t.Address) with
  | some vaultFromMeta =>
      let migrationAddress := FromAddress t.Address
      let migrationAvailable := vaultFromMeta.MigrationAvailable
      let migrationAddress :=
        if vaultFromMeta.MigrationAvailable then vaultFromMeta.MigrationTargetVault
        else migrationAddress
      { t with Migration := ⟨migrationAvailable, migrationAddress⟩ }
  | none => { t with Migration := migration }

/-- `func (t *TVault) BuildAPY(chainID uint64)` from `internal/vaults/model.go`,
with the global `store.Store.AggregatedVault` made an explicit parameter.  The
field-by-field copy of the Go code is mirrored verbatim. -/
def TVault.BuildAPY (t : TVault) (st : AggStore) (chainID : Nat) : TVault :=
  let apy : TAPY := TAPY.zero
  match st chainID (FromAddress t.Address) with
  | some aggregatedVault =>
      { t with APY :=
        { «Type» := aggregatedVault.LegacyAPY.«Type»
          GrossAPR := aggregatedVault.LegacyAPY.GrossAPR
          NetAPY := aggregatedVault.LegacyAPY.NetAPY
          Points :=
            { WeekAgo := aggregatedVault.LegacyAPY.Points.WeekAgo
              MonthAgo := aggregatedVault.LegacyAPY.Points.MonthAgo
              Inception := aggregatedVault.LegacyAPY.Points.Inception }
          Composite :=
            { Boost := aggregatedVault.LegacyAPY.Composite.Boost
              PoolAPY := aggregatedVault.LegacyAPY.Composite.PoolAPY
              BoostedAPR := aggregatedVault.LegacyAPY.Composite.BoostedAPR
              BaseAPR := aggregatedVault.LegacyAPY.Composite.BaseAPR
              CvxAPR := aggregatedVault.LegacyAPY.Composite.CvxAPR
              RewardsAPR := aggregatedVault.LegacyAPY.Composite.RewardsAPR }
          Fees :=
            { Performance := aggregatedVault.LegacyAPY.Fees.Performance
              Management := aggregatedVault.LegacyAPY.Fees.Management
              Withdrawal := aggregatedVault.LegacyAPY.Fees.Withdrawal
              KeepCRV := aggregatedVault.LegacyAPY.Fees.KeepCRV
              CvxKeepCRV := aggregatedVault.LegacyAPY.Fees.CvxKeepCRV } } }
  | none => { t with APY := apy }

/-- The inner level of `_vaultMap` (`map[ethcommon.Address]*TVault`), modelled
as an association list.  Go maps never hold two entries for the same key, so a
map reachable from Go operations has `Nodup` keys. -/
def VaultChainMap := List (EthAddress × TVault)

/-- `_vaultMap : map[uint64]map[ethcommon.Address]*TVault`, outer level.
Indexing a missing chain in Go yields the nil map, modelled by `[]`. -/
def VaultMap := Nat → VaultChainMap

/-- The initial (empty) `_vaultMap`. -/
def emptyVaultMap : VaultMap := fun _ => []

/-- Modelled from the spec: `Insert(chainID, record)` is required by §4.4 but
not shown in the sampled core — "adds or replaces the record at
(chainID, record.address)". -/
def insertVault (m : VaultMap) (chainID : Nat) (v : TVault) : VaultMap :=
  fun c =>
    if c = chainID then (v.Address, v) :: (m c).filter (fun p => p.1 ≠ v.Address)
    else m c

/-- Builds `_vaultMap` from a sequence of `Insert(chainID, record)` calls. -/
def buildVaultMap (ops : List (Nat × TVault)) : VaultMap :=
  ops.foldl (fun m p => insertVault m p.1 p.2) emptyVaultMap

/-- `func ListVaults(chainID uint64) []*TVault` from `internal/vaults/model.go`:
collect every vault stored for that chain (iteration order unspecified). -/
def ListVaults (m : VaultMap) (chainID : Nat) : List TVault :=
  (m chainID).map Prod.snd

/-- `func ListVaultsAddresses(chainID uint64) []common.Address` from
`internal/vaults/model.go`: collect `common.FromAddress address` for every
stored address of that chain. -/
def ListVaultsAddresses (m : VaultMap) (chainID : Nat) : List CommonAddress :=
  (m chainID).map (fun p => FromAddress p.1)

/-- `func FindVault(chainID uint64, vaultAddress common.Address) (*TVault, bool)`
from `internal/vaults/model.go`.  The `*TVault` result is modelled as
`Option TVault` (`nil` is `none`). -/
def FindVault (m : VaultMap) (chainID : Nat) (vaultAddress : CommonAddress) :
    Option TVault × Bool :=
  match (m chainID).lookup vaultAddress.toAddress with
  | none => (none, false)
  | some token => (some token, true)

/-! ### Helper characterizations of the normalizer -/

/-- The display-name computation of `BuildNames` (lines 117–123). -/
def dispNameOf (raw mn : GoString) : GoString := if mn ≠ [] then mn else raw

/-- The formatted-name computation of `BuildNames` (lines 118–131). -/
def fmtNameOf (tok d : GoString) : GoString :=
  if d ≠ [] ∧ ¬ goEndsWith d yVaultW then d ++ spaceYVaultW
  else if ¬ goEndsWith tok yVaultW then tok ++ spaceYVaultW else tok

/-- The final-name computation of `BuildNames` (lines 116, 132–139). -/
def finalNameOf (sraw d f : GoString) : GoString :=
  if (if sraw = [] then d else sraw) = [] then f
  else (if sraw = [] then d else sraw)

/-- `BuildNames` written as one record update built from the three helper
computations. -/
theorem BuildNames_eq (t : TVault) (mn : GoString) :
    t.BuildNames mn = { t with
      Name := finalNameOf (stripQuotes t.Name) (dispNameOf t.Name mn)
        (fmtNameOf t.Token.Name (dispNameOf t.Name mn)),
      DisplayName := dispNameOf t.Name mn,
      FormatedName := fmtNameOf t.Token.Name (dispNameOf t.Name mn) } := rfl

/-- The formatted-symbol computation of `BuildSymbol` (lines 148–158). -/
def fmtSymOf (tok ms : GoString) : GoString :=
  if ms ≠ [] ∧ ¬ goStartsWith ms yvW then yvW ++ ms
  else if ¬ goStartsWith tok yvW then yvW ++ tok else tok

/-- The final-symbol computation of `BuildSymbol` (lines 147, 159–160). -/
def finalSymOf (sraw ms f : GoString) : GoString := SafeString (SafeString sraw ms) f

/-- `BuildSymbol` written as one record update built from the helper
computations. -/
theorem BuildSymbol_eq (t : TVault) (ms : GoString) :
    t.BuildSymbol ms = { t with
      Symbol := finalSymOf (stripQuotes t.Symbol) ms (fmtSymOf t.Token.Symbol ms),
      DisplaySymbol := SafeString ms
        (finalSymOf (stripQuotes t.Symbol) ms (fmtSymOf t.Token.Symbol ms)),
      FormatedSymbol := fmtSymOf t.Token.Symbol ms } := rfl

/-- Stripping quotes from a quote-free string is the identity. -/
theorem stripQuotes_of_not_mem {s : GoString} (h : quoteChar ∉ s) :
    stripQuotes s = s := by
  unfold stripQuotes
  rw [List.filter_eq_self]
  intro a ha
  simp only [ne_eq, decide_eq_true_eq]
  exact fun e => h (e ▸ ha)

/-- A stripped string never contains the quote character. -/
theorem not_mem_stripQuotes (s : GoString) : quoteChar ∉ stripQuotes s := by
  unfold stripQuotes
  intro h
  have := (List.mem_filter.mp h).2
  simp at this

/-- `"yVault"` is a suffix of anything with `" yVault"` appended. -/
theorem yVault_suffix_append (x : GoString) : yVaultW <:+ x ++ spaceYVaultW :=
  List.IsSuffix.trans (by decide) (List.suffix_append x spaceYVaultW)

/-- The formatted name always ends in `"yVault"`. -/
theorem fmtNameOf_ends (tok d : GoString) : yVaultW <:+ fmtNameOf tok d := by
  unfold fmtNameOf
  split_ifs with h1 h2
  · exact yVault_suffix_append d
  · exact of_decide_eq_true h2
  · exact yVault_suffix_append tok

/-- The formatted symbol always starts with `"yv"`. -/
theorem fmtSymOf_starts (tok ms : GoString) : yvW <+: fmtSymOf tok ms := by
  unfold fmtSymOf
  split_ifs with h1 h2
  · exact List.prefix_append yvW ms
  · exact of_decide_eq_true h2
  · exact List.prefix_append yvW tok

/-! ### Theorems for the claims -/

/-- **C4.** For every record and every curated override string, after
`BuildNames` the record's `FormatedName` ends with the suffix `"yVault"`. -/
theorem C4_formatedName_ends_yVault (t : TVault) (mn : GoString) :
    yVaultW <:+ (t.BuildNames mn).FormatedName := by
  rw [BuildNames_eq]
  exact fmtNameOf_ends t.Token.Name (dispNameOf t.Name mn)

/-- **C3.** For every record and every curated override string, after
`BuildSymbol` the record's `FormatedSymbol` starts with `"yv"`. -/
theorem C3_formatedSymbol_starts_yv (t : TVault) (ms : GoString) :
    yvW <+: (t.BuildSymbol ms).FormatedSymbol := by
  rw [BuildSymbol_eq]
  exact fmtSymOf_starts t.Token.Symbol ms

/-- **C9.** Whenever `FindVault` reports found = false, the record reference it
returns is `none`. -/
theorem C9_findVault_miss_nil (m : VaultMap) (chainID : Nat) (a : CommonAddress)
    (h : (FindVault m chainID a).2 = false) : (FindVault m chainID a).1 = none := by
  unfold FindVault at h ⊢
  cases hl : (m chainID).lookup a.toAddress with
  | none => simp [hl]
  | some v => rw [hl] at h; simp at h

/-- Witness for C9 at a concrete input: the empty map misses. -/
theorem C9_findVault_miss_nil_witness :
    (FindVault emptyVaultMap 1 CommonAddress.zero).1 = none :=
  C9_findVault_miss_nil emptyVaultMap 1 CommonAddress.zero (by rfl)

/-- A concrete vault record with every field at its Go zero value, used to
instantiate theorems at concrete inputs. -/
def baseVault : TVault :=
  { Address := ⟨0⟩, Registry := ⟨0⟩, Symbol := [], DisplaySymbol := [],
    FormatedSymbol := [], Name := [], DisplayName := [], FormatedName := [],
    Icon := [], Version := [], «Type» := [], Inception := 0, Decimals := 0,
    Endorsed := false, Emergency_shutdown := false, PricePerShare := 0,
    Token := ⟨[], []⟩,
    TVL := ⟨none, none, Float64.zero, Float64.zero, Float64.zero, Float64.zero⟩,
    APY := TAPY.zero, Strategies := [], Migration := TMigration.zero,
    Details := none }

/-- **C5.** `BuildMigration` sets `Migration` to: the zero value on a store
miss; (unavailable, the record's own address) when the entry marks migration
unavailable; (available, the entry's target vault) when it marks it
available. -/
theorem C5_buildMigration_cases (t : TVault) (st : MetaStore) (chainID : Nat) :
    (st chainID (FromAddress t.Address) = none →
      (t.BuildMigration st chainID).Migration = TMigration.zero) ∧
    (∀ e, st chainID (FromAddress t.Address) = some e → e.MigrationAvailable = false →
      (t.BuildMigration st chainID).Migration = ⟨false, FromAddress t.Address⟩) ∧
    (∀ e, st chainID (FromAddress t.Address) = some e → e.MigrationAvailable = true →
      (t.BuildMigration st chainID).Migration = ⟨true, e.MigrationTargetVault⟩) := by
  refine ⟨fun h => ?_, fun e h ha => ?_, fun e h ha => ?_⟩ <;>
    simp only [TVault.BuildMigration, h] <;> simp [ha]

/-- A concrete curated-metadata store used by witnesses: chain 1 holds an
available migration for address 0xABC targeting 0xDEF, and an unavailable one
for address 5. -/
def metaStoreW : MetaStore := fun c a =>
  if c = 1 ∧ a = ⟨0xABC⟩ then some ⟨true, ⟨0xDEF⟩⟩
  else if c = 1 ∧ a = ⟨5⟩ then some ⟨false, ⟨9⟩⟩
  else none

/-- Witness for C5: all three cases of `C5_buildMigration_cases` discharged at
concrete inputs. -/
theorem C5_buildMigration_cases_witness :
    (baseVault.BuildMigration metaStoreW 2).Migration = TMigration.zero ∧
    (({ baseVault with Address := ⟨5⟩ } : TVault).BuildMigration metaStoreW 1).Migration
      = ⟨false, ⟨5⟩⟩ ∧
    (({ baseVault with Address := ⟨0xABC⟩ } : TVault).BuildMigration metaStoreW 1).Migration
      = ⟨true, ⟨0xDEF⟩⟩ :=
  ⟨(C5_buildMigration_cases baseVault metaStoreW 2).1 (by decide),
   (C5_buildMigration_cases { baseVault with Address := ⟨5⟩ } metaStoreW 1).2.1
     ⟨false, ⟨9⟩⟩ (by decide) rfl,
   (C5_buildMigration_cases { baseVault with Address := ⟨0xABC⟩ } metaStoreW 1).2.2
     ⟨true, ⟨0xDEF⟩⟩ (by decide) rfl⟩

/-- **C6.** `BuildAPY` never signals an error: on a store miss it sets `APY` to
the all-zero snapshot, and on a hit it copies the entry's `LegacyAPY` verbatim
(the Go field-by-field copy reassembles exactly the stored value). -/
theorem C6_buildAPY_cases (t : TVault) (st : AggStore) (chainID : Nat) :
    (st chainID (FromAddress t.Address) = none →
      (t.BuildAPY st chainID).APY = TAPY.zero) ∧
    (∀ e, st chainID (FromAddress t.Address) = some e →
      (t.BuildAPY st chainID).APY = e.LegacyAPY) := by
  refine ⟨fun h => ?_, fun e h => ?_⟩ <;> simp only [TVault.BuildAPY, h]

/-- A concrete analytics store used by witnesses: chain 1 holds an entry for
address 7. -/
def aggStoreW : AggStore := fun c a =>
  if c = 1 ∧ a = ⟨7⟩ then
    some ⟨⟨"crv".toList, ⟨3⟩, ⟨2⟩, ⟨⟨1⟩, ⟨1⟩, ⟨1⟩, ⟨1⟩, ⟨1⟩⟩, ⟨⟨4⟩, ⟨4⟩, ⟨4⟩⟩,
      ⟨⟨6⟩, ⟨6⟩, ⟨6⟩, ⟨6⟩, ⟨6⟩, ⟨6⟩⟩⟩⟩
  else none

/-- Witness for C6: both cases of `C6_buildAPY_cases` discharged at concrete
inputs. -/
theorem C6_buildAPY_cases_witness :
    (baseVault.BuildAPY aggStoreW 3).APY = TAPY.zero ∧
    (({ baseVault with Address := ⟨7⟩ } : TVault).BuildAPY aggStoreW 1).APY
      = ⟨"crv".toList, ⟨3⟩, ⟨2⟩, ⟨⟨1⟩, ⟨1⟩, ⟨1⟩, ⟨1⟩, ⟨1⟩⟩, ⟨⟨4⟩, ⟨4⟩, ⟨4⟩⟩,
        ⟨⟨6⟩, ⟨6⟩, ⟨6⟩, ⟨6⟩, ⟨6⟩, ⟨6⟩⟩⟩ :=
  ⟨(C6_buildAPY_cases baseVault aggStoreW 3).1 (by decide),
   (C6_buildAPY_cases { baseVault with Address := ⟨7⟩ } aggStoreW 1).2
     ⟨⟨"crv".toList, ⟨3⟩, ⟨2⟩, ⟨⟨1⟩, ⟨1⟩, ⟨1⟩, ⟨1⟩, ⟨1⟩⟩, ⟨⟨4⟩, ⟨4⟩, ⟨4⟩⟩,
       ⟨⟨6⟩, ⟨6⟩, ⟨6⟩, ⟨6⟩, ⟨6⟩, ⟨6⟩⟩⟩⟩ (by decide)⟩

/-- **C10.** `BuildMigration` modifies only the `Migration` field and
`BuildAPY` modifies only the `APY` field; every other field of the record is
unchanged. -/
theorem C10_frame (t : TVault) (stM : MetaStore) (stA : AggStore) (c c' : Nat) :
    ((t.BuildMigration stM c).Address = t.Address ∧
     (t.BuildMigration stM c).Registry = t.Registry ∧
     (t.BuildMigration stM c).Symbol = t.Symbol ∧
     (t.BuildMigration stM c).DisplaySymbol = t.DisplaySymbol ∧
     (t.BuildMigration stM c).FormatedSymbol = t.FormatedSymbol ∧
     (t.BuildMigration stM c).Name = t.Name ∧
     (t.BuildMigration stM c).DisplayName = t.DisplayName ∧
     (t.BuildMigration stM c).FormatedName = t.FormatedName ∧
     (t.BuildMigration stM c).Icon = t.Icon ∧
     (t.BuildMigration stM c).Version = t.Version ∧
     (t.BuildMigration stM c).«Type» = t.«Type» ∧
     (t.BuildMigration stM c).Inception = t.Inception ∧
     (t.BuildMigration stM c).Decimals = t.Decimals ∧
     (t.BuildMigration stM c).Endorsed = t.Endorsed ∧
     (t.BuildMigration stM c).Emergency_shutdown = t.Emergency_shutdown ∧
     (t.BuildMigration stM c).PricePerShare = t.PricePerShare ∧
     (t.BuildMigration stM c).Token = t.Token ∧
     (t.BuildMigration stM c).TVL = t.TVL ∧
     (t.BuildMigration stM c).APY = t.APY ∧
     (t.BuildMigration stM c).Strategies = t.Strategies ∧
     (t.BuildMigration stM c).Details = t.Details) ∧
    ((t.BuildAPY stA c').Address = t.Address ∧
     (t.BuildAPY stA c').Registry = t.Registry ∧
     (t.BuildAPY stA c').Symbol = t.Symbol ∧
     (t.BuildAPY stA c').DisplaySymbol = t.DisplaySymbol ∧
     (t.BuildAPY stA c').FormatedSymbol = t.FormatedSymbol ∧
     (t.BuildAPY stA c').Name = t.Name ∧
     (t.BuildAPY stA c').DisplayName = t.DisplayName ∧
     (t.BuildAPY stA c').FormatedName = t.FormatedName ∧
     (t.BuildAPY stA c').Icon = t.Icon ∧
     (t.BuildAPY stA c').Version = t.Version ∧
     (t.BuildAPY stA c').«Type» = t.«Type» ∧
     (t.BuildAPY stA c').Inception = t.Inception ∧
     (t.BuildAPY stA c').Decimals = t.Decimals ∧
     (t.BuildAPY stA c').Endorsed = t.Endorsed ∧
     (t.BuildAPY stA c').Emergency_shutdown = t.Emergency_shutdown ∧
     (t.BuildAPY stA c').PricePerShare = t.PricePerShare ∧
     (t.BuildAPY stA c').Token = t.Token ∧
     (t.BuildAPY stA c').TVL = t.TVL ∧
     (t.BuildAPY stA c').Migration = t.Migration ∧
     (t.BuildAPY stA c').Strategies = t.Strategies ∧
     (t.BuildAPY stA c').Details = t.Details) := by
  unfold TVault.BuildMigration TVault.BuildAPY
  cases stM c (FromAddress t.Address) <;>
    cases stA c' (FromAddress t.Address) <;> simp

/-- The concrete record of the §8 naming scenario: raw name `My "Vault"`
(with embedded quotes), token name `Foo Token`, no curated override. -/
def vaultScenario : TVault := { baseVault with
  Name := "My ".toList ++ [quoteChar] ++ "Vault".toList ++ [quoteChar],
  Token := ⟨"Foo Token".toList, []⟩ }

/-- **C2, counterexample.** In the §8 scenario the claim says the formatted
name is `"Foo Token yVault"`; the code instead recomputes it from the display
name (BuildNames lines 128–131), yielding `My "Vault" yVault`. -/
theorem C2_formatedName_counterexample :
    (vaultScenario.BuildNames []).FormatedName ≠ "Foo Token yVault".toList := by
  decide

/-- **C2, amended.** In the §8 scenario the final name is `"My Vault"`, the
display name keeps its quotes (`My "Vault"`), and the formatted name is the
quoted display name with `" yVault"` appended — `My "Vault" yVault` — not
`"Foo Token yVault"`, because the non-empty display name takes precedence over
the token-derived formatted name. -/
theorem C2_names_scenario :
    (vaultScenario.BuildNames []).Name = "My Vault".toList ∧
    (vaultScenario.BuildNames []).DisplayName
      = "My ".toList ++ [quoteChar] ++ "Vault".toList ++ [quoteChar] ∧
    (vaultScenario.BuildNames []).FormatedName
      = "My ".toList ++ [quoteChar] ++ "Vault".toList ++ [quoteChar] ++ " yVault".toList := by
  decide

/-! ### String-level lemmas towards idempotence -/

theorem SafeString_of_ne (s f : GoString) (h : s ≠ []) : SafeString s f = s :=
  if_neg h

theorem fmtSym_not_mem (tok ms : GoString) (hT : quoteChar ∉ tok)
    (hM : quoteChar ∉ ms) : quoteChar ∉ fmtSymOf tok ms := by
  unfold fmtSymOf
  split_ifs with h1 h2
  · intro h
    rcases List.mem_append.mp h with h | h
    · exact (by decide : quoteChar ∉ yvW) h
    · exact hM h
  · exact hT
  · intro h
    rcases List.mem_append.mp h with h | h
    · exact (by decide : quoteChar ∉ yvW) h
    · exact hT h

theorem fmtSym_ne_nil (tok ms : GoString) : fmtSymOf tok ms ≠ [] := by
  obtain ⟨r, hr⟩ := fmtSymOf_starts tok ms
  intro h0
  rw [h0] at hr
  exact (by decide : yvW ≠ []) (List.append_eq_nil.mp hr).1

theorem finalSym_ne_nil (sraw ms F : GoString) (hF : F ≠ []) :
    finalSymOf sraw ms F ≠ [] := by
  unfold finalSymOf SafeString
  split_ifs <;> simp_all

theorem finalSym_mem (sraw ms F : GoString) :
    finalSymOf sraw ms F = sraw ∨ finalSymOf sraw ms F = ms ∨
    finalSymOf sraw ms F = F := by
  unfold finalSymOf SafeString
  split_ifs <;> tauto

/-- Core of BuildSymbol idempotence: re-running the final-symbol computation on
the produced symbol gives it back, provided override and token symbol are
quote-free. -/
theorem symFields_idem (sraw tok ms : GoString) (hT : quoteChar ∉ tok)
    (hM : quoteChar ∉ ms) :
    finalSymOf (stripQuotes (finalSymOf (stripQuotes sraw) ms (fmtSymOf tok ms)))
        ms (fmtSymOf tok ms)
      = finalSymOf (stripQuotes sraw) ms (fmtSymOf tok ms) := by
  have hSne : finalSymOf (stripQuotes sraw) ms (fmtSymOf tok ms) ≠ [] :=
    finalSym_ne_nil _ _ _ (fmtSym_ne_nil tok ms)
  have hSq : quoteChar ∉ finalSymOf (stripQuotes sraw) ms (fmtSymOf tok ms) := by
    rcases finalSym_mem (stripQuotes sraw) ms (fmtSymOf tok ms) with h | h | h <;> rw [h]
    · exact not_mem_stripQuotes sraw
    · exact hM
    · exact fmtSym_not_mem tok ms hT hM
  rw [stripQuotes_of_not_mem hSq]
  conv_lhs => rw [finalSymOf, SafeString_of_ne _ _ hSne, SafeString_of_ne _ _ hSne]

/-- Core of BuildNames idempotence: re-running the display-name and final-name
computations on the produced name gives the same results, provided the raw
name and the override are quote-free and not both empty. -/
theorem nameFields_idem (raw tok mn : GoString) (hN : quoteChar ∉ raw)
    (hM : quoteChar ∉ mn) (hNE : ¬(raw = [] ∧ mn = [])) :
    dispNameOf (finalNameOf (stripQuotes raw) (dispNameOf raw mn)
        (fmtNameOf tok (dispNameOf raw mn))) mn
      = dispNameOf raw mn ∧
    finalNameOf (stripQuotes (finalNameOf (stripQuotes raw) (dispNameOf raw mn)
        (fmtNameOf tok (dispNameOf raw mn))))
        (dispNameOf raw mn) (fmtNameOf tok (dispNameOf raw mn))
      = finalNameOf (stripQuotes raw) (dispNameOf raw mn)
          (fmtNameOf tok (dispNameOf raw mn)) := by
  rw [stripQuotes_of_not_mem hN]
  rcases eq_or_ne mn [] with hm | hm
  · subst hm
    have hraw : raw ≠ [] := fun h => hNE ⟨h, rfl⟩
    have hD : dispNameOf raw [] = raw := by simp [dispNameOf]
    rw [hD]
    have hNval : finalNameOf raw raw (fmtNameOf tok raw) = raw := by
      simp [finalNameOf, hraw]
    rw [hNval, stripQuotes_of_not_mem hN]
    exact ⟨hD, hNval⟩
  · have hD : dispNameOf raw mn = mn := by simp [dispNameOf, hm]
    rw [hD]
    rcases eq_or_ne raw [] with hr | hr
    · subst hr
      have hNval : finalNameOf [] mn (fmtNameOf tok mn) = mn := by
        simp [finalNameOf, hm]
      rw [hNval, stripQuotes_of_not_mem hM]
      exact ⟨by simp [dispNameOf, hm], by simp [finalNameOf, hm]⟩
    · have hNval : finalNameOf raw mn (fmtNameOf tok mn) = raw := by
        simp [finalNameOf, hr]
      rw [hNval, stripQuotes_of_not_mem hN]
      exact ⟨by simp [dispNameOf, hm], hNval⟩

/-- `BuildNames` is idempotent when the raw name and the curated override are
quote-free and not both empty. -/
theorem buildNames_idem (t : TVault) (mn : GoString) (h1 : quoteChar ∉ t.Name)
    (h2 : quoteChar ∉ mn) (h3 : ¬(t.Name = [] ∧ mn = [])) :
    (t.BuildNames mn).BuildNames mn = t.BuildNames mn := by
  obtain ⟨ha, hb⟩ := nameFields_idem t.Name t.Token.Name mn h1 h2 h3
  simp only [BuildNames_eq]
  rw [ha, hb]

/-- `BuildSymbol` is idempotent when the curated override and the token symbol
are quote-free. -/
theorem buildSymbol_idem (t : TVault) (ms : GoString)
    (hTs : quoteChar ∉ t.Token.Symbol) (hMs : quoteChar ∉ ms) :
    (t.BuildSymbol ms).BuildSymbol ms = t.BuildSymbol ms := by
  have h := symFields_idem t.Symbol t.Token.Symbol ms hTs hMs
  simp only [BuildSymbol_eq]
  rw [h]

/-- A record whose raw name contains an embedded quote, with no curated
override. -/
def vaultQuote : TVault := { baseVault with
  Name := 'a' :: quoteChar :: ['b'], Token := ⟨"T".toList, []⟩ }

/-- **C1, counterexample.** Applying `BuildNames` twice with the same (empty)
curated override does not reproduce the once-applied record when the raw name
contains a quote: the second run recomputes the display name from the already
stripped `Name` field, so `DisplayName` changes from `a"b` to `ab`. -/
theorem C1_idempotence_counterexample :
    (vaultQuote.BuildNames []).BuildNames [] ≠ vaultQuote.BuildNames [] := by
  decide

/-- **C1, amended.** `BuildNames` applied twice with the same curated override
yields the same record as applied once, provided the raw name and the override
contain no quote character and are not both empty; `BuildSymbol` applied twice
with the same curated override yields the same record as applied once,
provided the override and the token symbol contain no quote character. -/
theorem C1_normalization_idempotent (t : TVault) (mn ms : GoString)
    (hN : quoteChar ∉ t.Name) (hMn : quoteChar ∉ mn)
    (hNE : ¬(t.Name = [] ∧ mn = []))
    (hTs : quoteChar ∉ t.Token.Symbol) (hMs : quoteChar ∉ ms) :
    (t.BuildNames mn).BuildNames mn = t.BuildNames mn ∧
    (t.BuildSymbol ms).BuildSymbol ms = t.BuildSymbol ms :=
  ⟨buildNames_idem t mn hN hMn hNE, buildSymbol_idem t ms hTs hMs⟩

/-- A quote-free concrete record for the idempotence witness. -/
def vaultPlain : TVault := { baseVault with
  Name := "Vault A".toList, Symbol := "VA".toList,
  Token := ⟨"Token A".toList, "tknA".toList⟩ }

/-- Witness for C1 at a concrete input. -/
theorem C1_normalization_idempotent_witness :
    ((vaultPlain.BuildNames "Nice Vault".toList).BuildNames "Nice Vault".toList
      = vaultPlain.BuildNames "Nice Vault".toList) ∧
    ((vaultPlain.BuildSymbol "NICE".toList).BuildSymbol "NICE".toList
      = vaultPlain.BuildSymbol "NICE".toList) :=
  C1_normalization_idempotent vaultPlain "Nice Vault".toList "NICE".toList
    (by decide) (by decide) (by decide) (by decide) (by decide)

/-- Looking up a key absent from an association list stays absent after
`filter`. -/
theorem lookup_filter_none (l : List (EthAddress × TVault)) (a : EthAddress)
    (q : EthAddress × TVault → Bool) (h : l.lookup a = none) :
    (l.filter q).lookup a = none := by
  induction l with
  | nil => simp
  | cons p tl ih =>
    obtain ⟨k, v⟩ := p
    by_cases hk : a = k
    · subst hk
      simp [List.lookup_cons] at h
    · have hbeq : (a == k) = false := beq_false_of_ne hk
      simp only [List.lookup_cons, hbeq] at h
      simp only [List.filter_cons]
      by_cases hq : q (k, v)
      · rw [if_pos hq]
        simp only [List.lookup_cons, hbeq]
        exact ih h
      · rw [if_neg hq]
        exact ih h

/-- A key never inserted by any of the `Insert` calls stays absent from the
built map. -/
theorem lookup_buildVaultMap_none (ops : List (Nat × TVault)) (m : VaultMap)
    (c : Nat) (a : EthAddress) (hm : (m c).lookup a = none)
    (h : ∀ p ∈ ops, ¬(p.1 = c ∧ p.2.Address = a)) :
    ((ops.foldl (fun m p => insertVault m p.1 p.2) m) c).lookup a = none := by
  induction ops generalizing m with
  | nil => simpa using hm
  | cons p ops ih =>
    simp only [List.foldl_cons]
    refine ih (insertVault m p.1 p.2) ?_ (fun q hq => h q (List.mem_cons_of_mem p hq))
    simp only [insertVault]
    by_cases hc : c = p.1
    · rw [if_pos hc]
      have hne : p.2.Address ≠ a := fun he => h p (List.mem_cons_self p ops) ⟨hc.symm, he⟩
      have hbeq : (a == p.2.Address) = false := beq_false_of_ne (fun he => hne he.symm)
      simp only [List.lookup_cons, hbeq]
      exact lookup_filter_none _ _ _ hm
    · rw [if_neg hc]
      exact hm

/-- **C7.** `FindVault` returns (nil, false) for a key never inserted, and
(the exact inserted record, true) for a key just inserted. -/
theorem C7_findVault_insert (ops : List (Nat × TVault)) (m : VaultMap)
    (c : Nat) (a : EthAddress) (v : TVault) :
    ((∀ p ∈ ops, ¬(p.1 = c ∧ p.2.Address = a)) →
      FindVault (buildVaultMap ops) c (FromAddress a) = (none, false)) ∧
    FindVault (insertVault m c v) c (FromAddress v.Address) = (some v, true) := by
  constructor
  · intro h
    have h0 : ((emptyVaultMap c).lookup a) = none := by
      simp [emptyVaultMap]
    have hnone := lookup_buildVaultMap_none ops emptyVaultMap c a h0 h
    unfold FindVault
    rw [show (FromAddress a).toAddress = a from rfl]
    unfold buildVaultMap at *
    rw [hnone]
  · unfold FindVault
    simp only [insertVault, if_pos rfl]
    rw [show (FromAddress v.Address).toAddress = v.Address from rfl]
    simp [List.lookup_cons]

/-- Witness for C7 at concrete inputs: a one-insert map misses a foreign
chain, and a fresh insert is found. -/
theorem C7_findVault_insert_witness :
    FindVault (buildVaultMap [(1, vaultPlain)]) 2 (FromAddress ⟨0⟩) = (none, false) ∧
    FindVault (insertVault emptyVaultMap 1 vaultPlain) 1 (FromAddress vaultPlain.Address)
      = (some vaultPlain, true) :=
  ⟨(C7_findVault_insert [(1, vaultPlain)] emptyVaultMap 2 ⟨0⟩ vaultPlain).1 (by decide),
   (C7_findVault_insert [(1, vaultPlain)] emptyVaultMap 1 ⟨0⟩ vaultPlain).2⟩

/-- **C8.** For a chain map with distinct keys (the Go map invariant), the
length of `ListVaults` equals the number of distinct stored addresses, and
`ListVaultsAddresses` yields exactly that address set. -/
theorem C8_list_counts (m : VaultMap) (c : Nat)
    (h : ((m c).map Prod.fst).Nodup) :
    (ListVaults m c).length = ((m c).map Prod.fst).toFinset.card ∧
    (∀ a : EthAddress, FromAddress a ∈ ListVaultsAddresses m c ↔ a ∈ (m c).map Prod.fst) ∧
    (ListVaultsAddresses m c).toFinset
      = ((m c).map Prod.fst).toFinset.image FromAddress := by
  have hinj : Function.Injective FromAddress := fun x y hxy => by
    cases x; cases y; cases hxy; rfl
  refine ⟨?_, ?_, ?_⟩
  · rw [List.toFinset_card_of_nodup h]
    simp [ListVaults]
  · intro a
    simp only [ListVaultsAddresses, List.mem_map]
    constructor
    · rintro ⟨p, hp, he⟩
      exact ⟨p, hp, hinj he⟩
    · rintro ⟨p, hp, rfl⟩
      exact ⟨p, hp, rfl⟩
  · ext x
    simp only [ListVaultsAddresses, List.mem_toFinset, List.mem_map, Finset.mem_image]
    constructor
    · rintro ⟨p, hp, rfl⟩
      exact ⟨p.1, ⟨p, hp, rfl⟩, rfl⟩
    · rintro ⟨a, ⟨p, hp, rfl⟩, rfl⟩
      exact ⟨p, hp, rfl⟩

/-- A concrete two-vault map on chain 1 used by the C8 witness. -/
def mapW : VaultMap :=
  buildVaultMap [(1, vaultPlain), (1, { baseVault with Address := ⟨2⟩ })]

/-- Witness for C8 at a concrete input. -/
theorem C8_list_counts_witness :
    (ListVaults mapW 1).length = ((mapW 1).map Prod.fst).toFinset.card ∧
    (FromAddress ⟨2⟩ ∈ ListVaultsAddresses mapW 1 ↔ ⟨2⟩ ∈ (mapW 1).map Prod.fst) ∧
    (ListVaultsAddresses mapW 1).toFinset
      = ((mapW 1).map Prod.fst).toFinset.image FromAddress :=
  ⟨(C8_list_counts mapW 1 (by decide)).1,
   (C8_list_counts mapW 1 (by decide)).2.1 ⟨2⟩,
   (C8_list_counts mapW 1 (by decide)).2.2⟩
